import Mathlib

/-!
Verification of the scroll-synchronization and adaptive-scheduling core of
react-native-collapsible-tab-view (tanliuyi fork).

The development shallowly embeds, directly from the TypeScript source:

* the performance monitor ring buffer and strategy selector
  (recordTabSwitch in useHighPerformanceTab / PerformanceMonitor.recordTabSwitch),
* the virtualized tab manager (VirtualizedTabManager in
  HighPerformanceOptimizations.ts),
* the batching sync scheduler (requestSync / processBatch /
  getThrottleInterval in useHighPerformanceTab), and
* the mount logic of the Lazy component (canMount state, startMountTimer,
  the focused-tab reaction, and the startMounted effect).

JavaScript numbers that are always integral milliseconds or pixel offsets are
modelled as Int; JS Map objects are modelled as association lists with the
insert-or-replace-in-place update of Map.set.  Asynchronous callbacks
(setTimeout timers, the InteractionManager completion inside processBatch)
are modelled as explicit events / atomic completion: the deferral does not
change which corrections are applied nor their values, only when, and the
pending timers are tracked explicitly in the state.
-/

namespace TabSync

/-- Performance strategy of the scheduler, the literal union type
    of performanceStrategy in useHighPerformanceTabSync. -/
inductive Strategy where
  | normal
  | moderate
  | aggressive
  deriving DecidableEq, Repr

/-- State of the performance monitor: the switchTimes ref (ring buffer of the
    last up-to-10 switch durations) and the performanceStrategy ref. -/
structure MonitorState where
  switchTimes : List Int
  strategy : Strategy
  deriving DecidableEq, Repr

/-- Initial monitor state: empty buffer, strategy starts at normal. -/
def initMonitor : MonitorState := ⟨[], Strategy.normal⟩

/-- Sum of a duration list, as in switchTimes.current.reduce((a, b) => a + b, 0). -/
def sumTimes (l : List Int) : Int := l.foldl (fun a b => a + b) 0

/-- Threshold mapping of the source: avgTime > 100 gives aggressive,
    avgTime > 50 gives moderate, else normal.  Because the durations are
    integral and the buffer is nonempty at every use site, the float
    comparison sum / len > c is equivalent to the exact integer comparison
    c * len < sum used here. -/
def strategyOfAvg (times : List Int) : Strategy :=
  if (100 : Int) * times.length < sumTimes times then Strategy.aggressive
  else if (50 : Int) * times.length < sumTimes times then Strategy.moderate
  else Strategy.normal

/-- Embedding of recordTabSwitch: push the duration, drop the oldest entry
    when the buffer exceeds 10, and recompute the strategy from the moving
    average once at least 3 samples exist (otherwise the strategy ref is
    left untouched). -/
def recordTabSwitch (s : MonitorState) (duration : Int) : MonitorState :=
  let pushed := s.switchTimes ++ [duration]
  let times := if 10 < pushed.length then pushed.drop 1 else pushed
  if 3 ≤ times.length then ⟨times, strategyOfAvg times⟩ else ⟨times, s.strategy⟩

/-- Monitor state after feeding a whole sequence of switch durations from the
    initial state. -/
def runMonitor (ds : List Int) : MonitorState := ds.foldl recordTabSwitch initMonitor

/-- Strategy as a pure function of the sample buffer, the way the spec
    describes it: fewer than 3 samples means Normal, otherwise the threshold
    mapping on the moving average. -/
def strategySpec (times : List Int) : Strategy :=
  if times.length < 3 then Strategy.normal else strategyOfAvg times

lemma recordTabSwitch_switchTimes (s : MonitorState) (d : Int)
    (h : s.switchTimes.length ≤ 10) :
    (recordTabSwitch s d).switchTimes
      = (s.switchTimes ++ [d]).drop (s.switchTimes.length + 1 - 10) := by
  have hplen : (s.switchTimes ++ [d]).length = s.switchTimes.length + 1 := by simp
  simp only [recordTabSwitch]
  by_cases h10 : 10 < (s.switchTimes ++ [d]).length
  · rw [if_pos h10]
    have h1 : s.switchTimes.length + 1 - 10 = 1 := by omega
    rw [h1]
    split <;> rfl
  · rw [if_neg h10]
    have h0 : s.switchTimes.length + 1 - 10 = 0 := by omega
    rw [h0, List.drop_zero]
    split <;> rfl

lemma recordTabSwitch_len_le (s : MonitorState) (d : Int)
    (h : s.switchTimes.length ≤ 10) :
    (recordTabSwitch s d).switchTimes.length ≤ 10 := by
  rw [recordTabSwitch_switchTimes s d h]
  simp only [List.length_drop, List.length_append, List.length_cons, List.length_nil]
  omega

lemma runMonitor_switchTimes (ds : List Int) :
    (runMonitor ds).switchTimes = ds.drop (ds.length - 10)
      ∧ (runMonitor ds).switchTimes.length ≤ 10 := by
  induction ds using List.reverseRecOn with
  | nil => simp [runMonitor, initMonitor]
  | append_singleton ds d ih =>
    obtain ⟨hbuf, hlen⟩ := ih
    have hstep : runMonitor (ds ++ [d]) = recordTabSwitch (runMonitor ds) d := by
      simp [runMonitor]
    have hlen2 : (runMonitor ds).switchTimes.length = ds.length - (ds.length - 10) := by
      rw [hbuf, List.length_drop]
    constructor
    · rw [hstep, recordTabSwitch_switchTimes _ _ hlen, hbuf]
      have hdrop : (ds ++ [d]).drop (ds.length - 10)
          = ds.drop (ds.length - 10) ++ [d] :=
        List.drop_append_of_le_length (by omega)
      rw [← hdrop, List.drop_drop]
      congr 1
      simp only [List.length_drop, List.length_append, List.length_cons, List.length_nil]
      omega
    · rw [hstep]
      exact recordTabSwitch_len_le _ _ hlen

lemma recordTabSwitch_strategy (s : MonitorState) (d : Int)
    (hinv : s.strategy = strategySpec s.switchTimes)
    (hlen : s.switchTimes.length ≤ 10) :
    (recordTabSwitch s d).strategy = strategySpec (recordTabSwitch s d).switchTimes := by
  have hplen : (s.switchTimes ++ [d]).length = s.switchTimes.length + 1 := by simp
  simp only [recordTabSwitch]
  by_cases h10 : 10 < (s.switchTimes ++ [d]).length
  · rw [if_pos h10]
    have hdlen : ((s.switchTimes ++ [d]).drop 1).length = s.switchTimes.length + 1 - 1 := by
      rw [List.length_drop, hplen]
    by_cases h3 : 3 ≤ ((s.switchTimes ++ [d]).drop 1).length
    · rw [if_pos h3]
      simp only [strategySpec]
      rw [if_neg (by omega)]
    · exfalso
      omega
  · rw [if_neg h10]
    by_cases h3 : 3 ≤ (s.switchTimes ++ [d]).length
    · rw [if_pos h3]
      simp only [strategySpec]
      rw [if_neg (by omega)]
    · rw [if_neg h3]
      have hlt : s.switchTimes.length < 3 := by omega
      have hlt2 : (s.switchTimes ++ [d]).length < 3 := by omega
      simp only [strategySpec] at hinv ⊢
      rw [if_pos hlt] at hinv
      rw [if_pos hlt2]
      exact hinv

lemma runMonitor_strategy (ds : List Int) :
    (runMonitor ds).strategy = strategySpec (runMonitor ds).switchTimes := by
  induction ds using List.reverseRecOn with
  | nil => simp [runMonitor, initMonitor, strategySpec]
  | append_singleton ds d ih =>
    have hstep : runMonitor (ds ++ [d]) = recordTabSwitch (runMonitor ds) d := by
      simp [runMonitor]
    rw [hstep]
    exact recordTabSwitch_strategy _ _ ih (runMonitor_switchTimes ds).2

/-- C7: recordSwitch appends to the buffer and the resulting strategy is a
    deterministic function of the samples: Normal below 3 samples, otherwise
    Aggressive when the average exceeds 100, Moderate when it exceeds 50,
    else Normal; feeding durations 20, 30, 25 yields Normal and feeding
    120, 130, 110 yields Aggressive. -/
theorem c7_strategy_derivation :
    (∀ ds : List Int, (runMonitor ds).strategy = strategySpec (runMonitor ds).switchTimes)
      ∧ (runMonitor [20, 30, 25]).strategy = Strategy.normal
      ∧ (runMonitor [120, 130, 110]).strategy = Strategy.aggressive :=
  ⟨runMonitor_strategy, by decide, by decide⟩

/-- C9: the sample buffer is bounded: after any sequence of recordSwitch
    calls it holds exactly the most recent min(10, total) samples, in order
    (the oldest is evicted on overflow). -/
theorem c9_bounded_buffer :
    ∀ ds : List Int,
      (runMonitor ds).switchTimes = ds.drop (ds.length - 10)
        ∧ (runMonitor ds).switchTimes.length = min ds.length 10 := by
  intro ds
  obtain ⟨hbuf, _⟩ := runMonitor_switchTimes ds
  refine ⟨hbuf, ?_⟩
  rw [hbuf]
  simp only [List.length_drop]
  omega

/-- Insert-or-replace update of a string-keyed association list, the
    semantics of Map.set on a JS Map (the value of an existing key is
    replaced in place, a new key is appended at the end). -/
def mapSet {α : Type} : List (String × α) → String → α → List (String × α)
  | [], k, v => [(k, v)]
  | p :: rest, k, v => if p.1 == k then (k, v) :: rest else p :: mapSet rest k v

/-- Lookup in a string-keyed association list, the semantics of Map.get. -/
def lookupMap {α : Type} (m : List (String × α)) (k : String) : Option α :=
  (m.find? (fun p => p.1 == k)).map (fun p => p.2)

lemma lookupMap_mapSet {α : Type} (m : List (String × α)) (k : String) (v : α) :
    lookupMap (mapSet m k v) k = some v := by
  induction m with
  | nil => simp [mapSet, lookupMap, List.find?]
  | cons p rest ih =>
    by_cases hk : p.1 == k
    · simp [mapSet, hk, lookupMap, List.find?]
    · simp only [mapSet, hk, if_false, Bool.false_eq_true]
      simpa [lookupMap, List.find?, hk] using ih

lemma mem_mapSet {α : Type} {m : List (String × α)} {k : String} {v : α} {p : String × α}
    (h : p ∈ mapSet m k v) : p ∈ m ∨ p.1 = k := by
  induction m with
  | nil =>
    simp only [mapSet, List.mem_singleton] at h
    right; rw [h]
  | cons q rest ih =>
    simp only [mapSet] at h
    split at h
    · rcases List.mem_cons.mp h with h1 | h1
      · right; rw [h1]
      · left; exact List.mem_cons_of_mem _ h1
    · rcases List.mem_cons.mp h with h1 | h1
      · left; rw [h1]; exact List.mem_cons_self _ _
      · rcases ih h1 with h2 | h2
        · left; exact List.mem_cons_of_mem _ h2
        · right; exact h2

lemma mapSet_ne_nil {α : Type} (m : List (String × α)) (k : String) (v : α) :
    (mapSet m k v).isEmpty = false := by
  cases m with
  | nil => rfl
  | cons p rest =>
    simp only [mapSet]
    split <;> rfl

/-- State of a VirtualizedTabManager instance: the configured window size,
    the visibleTabs set (as the list of names added by updateVisibility,
    queried only through contains) and the tabCache map. -/
structure VTMState (α : Type) where
  windowSize : Nat
  visibleTabs : List String
  tabCache : List (String × α)
  deriving DecidableEq, Repr

/-- Fresh manager: empty visible set and cache, as built by the constructor. -/
def initVTM (α : Type) (w : Nat) : VTMState α := ⟨w, [], []⟩

/-- Visible range computed by updateVisibility: start is
    max(0, currentIndex - floor(windowSize / 2)), the end index is
    min(tabNames.length - 1, start + windowSize - 1), and the loop collects
    tabNames[i] for start ≤ i ≤ end (empty when the end is below the start). -/
def visibleRange (windowSize : Nat) (currentIndex : Int) (tabNames : List String) :
    List String :=
  let start : Int := max 0 (currentIndex - (windowSize : Int) / 2)
  let stop : Int := min ((tabNames.length : Int) - 1) (start + (windowSize : Int) - 1)
  if stop < start then [] else (tabNames.take (stop.toNat + 1)).drop start.toNat

/-- Embedding of VirtualizedTabManager.updateVisibility: recompute the
    visible set and delete from the cache every tab that was visible but
    is no longer. -/
def updateVisibility {α : Type} (s : VTMState α) (currentIndex : Int)
    (tabNames : List String) : VTMState α :=
  let newVisible := visibleRange s.windowSize currentIndex tabNames
  let newCache := s.tabCache.filter
    (fun p => !(s.visibleTabs.contains p.1 && !(newVisible.contains p.1)))
  ⟨s.windowSize, newVisible, newCache⟩

/-- Embedding of VirtualizedTabManager.cacheTab: the cache is written only
    when the tab is currently visible. -/
def cacheTab {α : Type} (s : VTMState α) (tab : String) (v : α) : VTMState α :=
  if s.visibleTabs.contains tab then
    ⟨s.windowSize, s.visibleTabs, mapSet s.tabCache tab v⟩
  else s

/-- Embedding of VirtualizedTabManager.getCache. -/
def getCache {α : Type} (s : VTMState α) (tab : String) : Option α :=
  lookupMap s.tabCache tab

/-- Embedding of VirtualizedTabManager.isVisible. -/
def isVisible {α : Type} (s : VTMState α) (tab : String) : Bool :=
  s.visibleTabs.contains tab

/-- Operations a client can perform on a VirtualizedTabManager. -/
inductive VTMOp (α : Type) where
  | update (currentIndex : Int) (tabNames : List String)
  | cache (tab : String) (v : α)

/-- One operation applied to the manager state. -/
def applyVTMOp {α : Type} (s : VTMState α) : VTMOp α → VTMState α
  | VTMOp.update i names => updateVisibility s i names
  | VTMOp.cache t v => cacheTab s t v

/-- Manager state after a whole operation sequence from a fresh manager. -/
def runVTM (α : Type) (w : Nat) (ops : List (VTMOp α)) : VTMState α :=
  ops.foldl applyVTMOp (initVTM α w)

lemma find?_filter_eq_of_mem {α : Type} (l : List α) (f q : α → Bool)
    (h : ∀ a ∈ l, q a = true → f a = true) :
    (l.filter f).find? q = l.find? q := by
  induction l with
  | nil => rfl
  | cons a rest ih =>
    have hrest : ∀ b ∈ rest, q b = true → f b = true :=
      fun b hb => h b (List.mem_cons_of_mem _ hb)
    by_cases hq : q a = true
    · rw [List.filter_cons_of_pos (h a (List.mem_cons_self _ _) hq)]
      simp [List.find?, hq]
    · by_cases hf : f a = true
      · rw [List.filter_cons_of_pos hf]
        simp only [List.find?]
        rw [Bool.of_not_eq_true hq]
        exact ih hrest
      · rw [List.filter_cons_of_neg (by simpa using hf)]
        rw [ih hrest]
        simp only [List.find?]
        rw [Bool.of_not_eq_true hq]

lemma find?_filter_none_of_mem {α : Type} (l : List α) (f q : α → Bool)
    (h : ∀ a ∈ l, q a = true → f a = false) :
    (l.filter f).find? q = none := by
  induction l with
  | nil => rfl
  | cons a rest ih =>
    have hrest : ∀ b ∈ rest, q b = true → f b = false :=
      fun b hb => h b (List.mem_cons_of_mem _ hb)
    by_cases hq : q a = true
    · rw [List.filter_cons_of_neg (by simp [h a (List.mem_cons_self _ _) hq])]
      exact ih hrest
    · by_cases hf : f a = true
      · rw [List.filter_cons_of_pos hf]
        simp only [List.find?]
        rw [Bool.of_not_eq_true hq]
        exact ih hrest
      · rw [List.filter_cons_of_neg (by simpa using hf)]
        exact ih hrest

lemma vtm_inv_step {α : Type} (s : VTMState α) (op : VTMOp α)
    (h : ∀ p ∈ s.tabCache, s.visibleTabs.contains p.1 = true) :
    ∀ p ∈ (applyVTMOp s op).tabCache, (applyVTMOp s op).visibleTabs.contains p.1 = true := by
  cases op with
  | update i names =>
    intro p hp
    simp only [applyVTMOp, updateVisibility, List.mem_filter] at hp ⊢
    obtain ⟨hmem, hkeep⟩ := hp
    have hold := h p hmem
    rw [hold] at hkeep
    simpa using hkeep
  | cache t v =>
    intro p hp
    simp only [applyVTMOp, cacheTab] at hp ⊢
    by_cases hvis : s.visibleTabs.contains t = true
    · rw [if_pos hvis] at hp ⊢
      simp only at hp ⊢
      rcases mem_mapSet hp with h1 | h1
      · exact h p h1
      · rw [h1]; exact hvis
    · rw [if_neg hvis] at hp ⊢
      exact h p hp

lemma runVTM_inv {α : Type} (w : Nat) (ops : List (VTMOp α)) :
    ∀ p ∈ (runVTM α w ops).tabCache, (runVTM α w ops).visibleTabs.contains p.1 = true := by
  suffices hgen : ∀ (ops : List (VTMOp α)) (s : VTMState α),
      (∀ p ∈ s.tabCache, s.visibleTabs.contains p.1 = true) →
      ∀ p ∈ (ops.foldl applyVTMOp s).tabCache,
        (ops.foldl applyVTMOp s).visibleTabs.contains p.1 = true by
    exact hgen ops (initVTM α w) (by intro p hp; simp [initVTM] at hp)
  intro ops
  induction ops with
  | nil => intro s hs; exact hs
  | cons op rest ih =>
    intro s hs
    exact ih (applyVTMOp s op) (vtm_inv_step s op hs)

/-- Concrete manager used by the eviction scenario: window size 3, the
    window of a previous focus on index 1 of tabs A..E, with payloads cached
    for all three visible tabs. -/
def sC8 : VTMState Int :=
  ⟨3, [("A"), ("B"), ("C")], [(("A"), 1), (("B"), 2), (("C"), 3)]⟩

/-- Tab order A, B, C, D, E of the eviction scenario. -/
def tabsC8 : List String := [("A"), ("B"), ("C"), ("D"), ("E")]

/-- C8: updateVisibility recomputes a contiguous index window clamped to the
    array bounds; payloads cached for tabs inside the new window are
    unaffected, payloads of tabs outside it are evicted, and with window
    size 3 and tabs A..E, focusing C keeps the window B, C, D, retains the
    caches of B and C and evicts A (D and E hold no cache since they were
    outside the previous window). -/
theorem c8_eviction :
    (∀ (s : VTMState Int) (i : Int) (names : List String) (t : String),
       (updateVisibility s i names).visibleTabs.contains t = true →
       getCache (updateVisibility s i names) t = getCache s t)
    ∧ (∀ (s : VTMState Int) (i : Int) (names : List String) (t : String),
         (∀ p ∈ s.tabCache, s.visibleTabs.contains p.1 = true) →
         (updateVisibility s i names).visibleTabs.contains t = false →
         getCache (updateVisibility s i names) t = none)
    ∧ (∀ (w : Nat) (i : Int) (names : List String),
         ∃ a b, visibleRange w i names = (names.drop a).take b)
    ∧ ((updateVisibility sC8 2 tabsC8).visibleTabs = [("B"), ("C"), ("D")]
        ∧ getCache (updateVisibility sC8 2 tabsC8) ("B") = some 2
        ∧ getCache (updateVisibility sC8 2 tabsC8) ("C") = some 3
        ∧ getCache (updateVisibility sC8 2 tabsC8) ("A") = none
        ∧ getCache (updateVisibility sC8 2 tabsC8) ("E") = none
        ∧ getCache sC8 ("A") = some 1) := by
  refine ⟨?_, ?_, ?_, by decide⟩
  · intro s i names t hvis
    simp only [updateVisibility] at hvis
    simp only [getCache, updateVisibility, lookupMap]
    congr 1
    apply find?_filter_eq_of_mem
    intro p hp hq
    have hpt : p.1 = t := by simpa using hq
    rw [hpt, hvis]
    simp
  · intro s i names t hinv hvis
    simp only [updateVisibility] at hvis
    simp only [getCache, updateVisibility, lookupMap]
    rw [find?_filter_none_of_mem]
    · rfl
    · intro p hp hq
      have hpt : p.1 = t := by simpa using hq
      have hold := hinv p hp
      rw [hpt] at hold
      rw [hpt, hold, hvis]
      rfl
  · intro w i names
    simp only [visibleRange]
    split
    · exact ⟨0, 0, rfl⟩
    · exact ⟨_, _, List.drop_take _ _ _⟩

/-- Witness for C8: the inside-the-window clause applied to tab B of the
    concrete scenario. -/
theorem c8_eviction_witness :
    (updateVisibility sC8 2 tabsC8).visibleTabs.contains ("B") = true
      ∧ getCache (updateVisibility sC8 2 tabsC8) ("B") = getCache sC8 ("B") :=
  ⟨by decide, c8_eviction.1 sC8 2 tabsC8 ("B") (by decide)⟩

/-- C10: implicit cache-containment invariant of VirtualizedTabManager: after
    any sequence of updateVisibility and cacheTab operations every cached key
    is in the current visible set, cacheTab on a tab outside the window is a
    silent no-op, and getCache on a tab outside the window returns nothing. -/
theorem c10_cache_containment :
    (∀ (w : Nat) (ops : List (VTMOp Int)) (p : String × Int),
       p ∈ (runVTM Int w ops).tabCache →
       (runVTM Int w ops).visibleTabs.contains p.1 = true)
    ∧ (∀ (s : VTMState Int) (t : String) (v : Int),
         s.visibleTabs.contains t = false → cacheTab s t v = s)
    ∧ (∀ (w : Nat) (ops : List (VTMOp Int)) (t : String),
         (runVTM Int w ops).visibleTabs.contains t = false →
         getCache (runVTM Int w ops) t = none) := by
  refine ⟨fun w ops p hp => runVTM_inv w ops p hp, ?_, ?_⟩
  · intro s t v h
    unfold cacheTab
    rw [h]
    rfl
  · intro w ops t hvis
    cases hfind : (runVTM Int w ops).tabCache.find? (fun p => p.1 == t) with
    | none => simp [getCache, lookupMap, hfind]
    | some p =>
      exfalso
      have hmem := List.mem_of_find?_eq_some hfind
      have hq := List.find?_some hfind
      have hpt : p.1 = t := by simpa using hq
      have hvt := runVTM_inv w ops p hmem
      rw [hpt] at hvt
      rw [hvt] at hvis
      exact Bool.noConfusion hvis

/-- Witness for C10: caching an invisible tab on the concrete manager is a
    no-op. -/
theorem c10_cache_containment_witness :
    sC8.visibleTabs.contains ("Z") = false ∧ cacheTab sC8 ("Z") 7 = sC8 :=
  ⟨by decide, c10_cache_containment.2.1 sC8 ("Z") 7 (by decide)⟩

/-- Environment read by useHighPerformanceTabSync.  The first five fields
    are exactly the values closed over by the hook: the tab order, whether
    refMap holds a truthy ref object for a tab, whether that ref has a
    mounted current instance, the content inset and the isScrolling shared
    value.  The last two fields are ghost observers that the hook cannot
    read and does not read: switchInProgress mirrors the tab-switch-in-flight
    flag kept by the surrounding controller and focusedIndex mirrors the
    index of focusedTab.current from the container context (the value the
    spec calls the focused tab); they appear only so that spec-level claims
    phrased in terms of them can be stated and refuted. -/
structure SyncEnv where
  tabNames : List String
  refPresent : String → Bool
  refCurrent : String → Bool
  contentInset : Int
  isScrolling : Bool
  switchInProgress : Bool
  focusedIndex : Int

/-- One scroll correction issued by the batch: scrollToImpl(ref, 0, target,
    false) on the named tab, where target is the queued scrollY minus the
    content inset. -/
structure Correction where
  tab : String
  target : Int
  deriving DecidableEq, Repr

/-- Mutable refs of the hook: the coalescing syncQueue map, the isProcessing
    flag, lastProcessTime, the current performance strategy, plus the fire
    times of the setTimeout callbacks scheduled by requestSync (tracked
    explicitly so that deferred batches are part of the state). -/
structure SchedState where
  syncQueue : List (String × Int)
  isProcessing : Bool
  lastProcessTime : Int
  strategy : Strategy
  pendingTimers : List Int
  deriving DecidableEq, Repr

/-- Embedding of getThrottleInterval: 50ms under aggressive, 33ms under
    moderate, 16ms otherwise. -/
def getThrottleInterval (s : Strategy) : Int :=
  match s with
  | Strategy.aggressive => 50
  | Strategy.moderate => 33
  | Strategy.normal => 16

/-- JS Array.prototype.findIndex: index of the first match, -1 when none. -/
def findIndexD (l : List String) (p : String → Bool) : Int :=
  match l.findIdx? p with
  | some i => (i : Int)
  | none => -1

/-- Embedding of processBatch: a no-op while isScrolling is true, while the
    queue is empty or while a batch is already processing; otherwise the
    queue is drained as one batch and every entry whose tab still has a ref
    object becomes one correction at its queued value minus the content
    inset, and lastProcessTime becomes the drain time.  The InteractionManager
    deferral between the drain and the scroll writes is collapsed into one
    atomic step (it changes neither which corrections are applied nor their
    values, and isProcessing is true only inside it), so the completed state
    has isProcessing back at false. -/
def processBatch (env : SyncEnv) (now : Int) (s : SchedState) :
    SchedState × List Correction :=
  if env.isScrolling || s.syncQueue.isEmpty || s.isProcessing then (s, [])
  else
    (⟨[], false, now, s.strategy, s.pendingTimers⟩,
     (s.syncQueue.filter (fun p => env.refPresent p.1)).map
       (fun p => ⟨p.1, p.2 - env.contentInset⟩))

/-- Embedding of requestSync: drop the request when the distance between the
    index of the requested tab and the index of the first tab whose ref has
    a mounted current exceeds 1; otherwise coalesce it into the queue and
    either process the batch at once (when the throttle interval has already
    elapsed since lastProcessTime) or schedule a setTimeout that fires the
    batch exactly at lastProcessTime plus the interval. -/
def requestSync (env : SyncEnv) (now : Int) (tabName : String) (scrollY : Int)
    (s : SchedState) : SchedState × List Correction :=
  let currentIndex := findIndexD env.tabNames (fun n => n == tabName)
  let fIdx := findIndexD env.tabNames env.refCurrent
  if 1 < (currentIndex - fIdx).natAbs then (s, [])
  else
    let s1 : SchedState :=
      ⟨mapSet s.syncQueue tabName scrollY, s.isProcessing, s.lastProcessTime,
       s.strategy, s.pendingTimers⟩
    if getThrottleInterval s.strategy ≤ now - s.lastProcessTime then
      processBatch env now s1
    else
      (⟨s1.syncQueue, s1.isProcessing, s1.lastProcessTime, s1.strategy,
        s1.pendingTimers ++ [s.lastProcessTime + getThrottleInterval s.strategy]⟩, [])

/-- A scheduled setTimeout callback firing at time t: it runs processBatch
    if (and only if) a timer with that fire time is actually pending, and
    consumes that timer. -/
def fireTimer (env : SyncEnv) (t : Int) (s : SchedState) :
    SchedState × List Correction :=
  if s.pendingTimers.contains t then
    processBatch env t
      ⟨s.syncQueue, s.isProcessing, s.lastProcessTime, s.strategy,
       s.pendingTimers.erase t⟩
  else (s, [])

/-- Events of a scheduler timeline: a requestSync call at time t, or a
    scheduled timer firing at time t. -/
inductive SyncEvent where
  | req (t : Int) (tab : String) (v : Int)
  | fire (t : Int)
  deriving DecidableEq, Repr

/-- One timeline step: apply the event and append the corrections it emitted
    (tagged with the event time) to the trace. -/
def stepSync (env : SyncEnv) (acc : SchedState × List (Int × List Correction))
    (e : SyncEvent) : SchedState × List (Int × List Correction) :=
  match e with
  | SyncEvent.req t tab v =>
      let r := requestSync env t tab v acc.1
      (r.1, acc.2 ++ [(t, r.2)])
  | SyncEvent.fire t =>
      let r := fireTimer env t acc.1
      (r.1, acc.2 ++ [(t, r.2)])

/-- Final state and full trace of a scheduler timeline. -/
def runSync (env : SyncEnv) (s0 : SchedState) (events : List SyncEvent) :
    SchedState × List (Int × List Correction) :=
  events.foldl (stepSync env) (s0, [])

/-- Trace entries at which a batch actually applied corrections. -/
def batchApplications (trace : List (Int × List Correction)) :
    List (Int × List Correction) :=
  trace.filter (fun e => !e.2.isEmpty)

lemma processBatch_noop_scrolling (env : SyncEnv) (now : Int) (s : SchedState)
    (h : env.isScrolling = true) : processBatch env now s = (s, []) := by
  simp [processBatch, h]

lemma processBatch_drain (env : SyncEnv) (now : Int) (s : SchedState)
    (h1 : env.isScrolling = false) (h2 : s.syncQueue.isEmpty = false)
    (h3 : s.isProcessing = false) :
    processBatch env now s =
      (⟨[], false, now, s.strategy, s.pendingTimers⟩,
       (s.syncQueue.filter (fun p => env.refPresent p.1)).map
         (fun p => ⟨p.1, p.2 - env.contentInset⟩)) := by
  simp [processBatch, h1, h2, h3]

lemma requestSync_deferred (env : SyncEnv) (now : Int) (tab : String) (v : Int)
    (s : SchedState)
    (hf : (findIndexD env.tabNames (fun n => n == tab)
            - findIndexD env.tabNames env.refCurrent).natAbs ≤ 1)
    (ht : now - s.lastProcessTime < getThrottleInterval s.strategy) :
    requestSync env now tab v s =
      (⟨mapSet s.syncQueue tab v, s.isProcessing, s.lastProcessTime, s.strategy,
        s.pendingTimers ++ [s.lastProcessTime + getThrottleInterval s.strategy]⟩, []) := by
  simp only [requestSync]
  rw [if_neg (by omega), if_neg (by omega)]

lemma mapSet_mapSet_same {α : Type} (m : List (String × α)) (k : String) (v1 v2 : α) :
    mapSet (mapSet m k v1) k v2 = mapSet m k v2 := by
  induction m with
  | nil => simp [mapSet]
  | cons p rest ih =>
    by_cases hk : (p.1 == k) = true
    · simp [mapSet, hk]
    · simp [mapSet, hk, ih]

lemma mapSet_filter_key {α : Type} (m : List (String × α)) (k : String) (v : α)
    (h : (m.map Prod.fst).Nodup) :
    (mapSet m k v).filter (fun p => p.1 == k) = [(k, v)] := by
  induction m with
  | nil => simp [mapSet]
  | cons p rest ih =>
    simp only [List.map_cons, List.nodup_cons] at h
    obtain ⟨hnp, hnr⟩ := h
    by_cases hk : (p.1 == k) = true
    · have hpk : p.1 = k := by simpa using hk
      have hrest : rest.filter (fun q => q.1 == k) = [] := by
        rw [List.filter_eq_nil_iff]
        intro q hq hqk
        apply hnp
        have hq1 : q.1 = k := by simpa using hqk
        rw [← hpk] at hq1
        rw [← hq1]
        exact List.mem_map_of_mem _ hq
      simp [mapSet, hk, hrest]
    · simp [mapSet, hk, ih hnr]

lemma corr_filter (q : List (String × Int)) (rp : String → Bool) (inset : Int)
    (k : String) :
    ((q.filter (fun p => rp p.1)).map
        (fun p => (⟨p.1, p.2 - inset⟩ : Correction))).filter (fun c => c.tab == k)
      = ((q.filter (fun p => p.1 == k)).filter (fun p => rp p.1)).map
          (fun p => ⟨p.1, p.2 - inset⟩) := by
  induction q with
  | nil => rfl
  | cons p rest ih =>
    by_cases hrp : rp p.1 = true
    · by_cases hk : (p.1 == k) = true
      · simp [hrp, hk, ih]
      · simp [hrp, hk, ih]
    · by_cases hk : (p.1 == k) = true
      · simp [hrp, hk, ih]
      · simp [hrp, hk, ih]

/-- C1: coalescing: two requestSync calls for the same tab issued before the
    next batch drain (both inside the throttle window, so neither drains by
    itself) leave exactly one queued entry for that tab; the drain applies
    exactly one correction to that tab and it scrolls to the latest value v2
    minus the content inset. -/
theorem c1_coalescing (env : SyncEnv) (s : SchedState) (tab : String)
    (v1 v2 now1 now2 now3 : Int)
    (hf : (findIndexD env.tabNames (fun n => n == tab)
            - findIndexD env.tabNames env.refCurrent).natAbs ≤ 1)
    (h1 : now1 - s.lastProcessTime < getThrottleInterval s.strategy)
    (h2 : now2 - s.lastProcessTime < getThrottleInterval s.strategy)
    (hscroll : env.isScrolling = false)
    (hproc : s.isProcessing = false)
    (href : env.refPresent tab = true)
    (hnodup : (s.syncQueue.map Prod.fst).Nodup) :
    (requestSync env now1 tab v1 s).2 = []
      ∧ (requestSync env now2 tab v2 (requestSync env now1 tab v1 s).1).2 = []
      ∧ ((processBatch env now3
            (requestSync env now2 tab v2 (requestSync env now1 tab v1 s).1).1).2.filter
          (fun c => c.tab == tab)) = [⟨tab, v2 - env.contentInset⟩] := by
  have e1 := requestSync_deferred env now1 tab v1 s hf h1
  have e2 := requestSync_deferred env now2 tab v2
    ⟨mapSet s.syncQueue tab v1, s.isProcessing, s.lastProcessTime, s.strategy,
      s.pendingTimers ++ [s.lastProcessTime + getThrottleInterval s.strategy]⟩ hf h2
  have e3 := processBatch_drain env now3
    ⟨mapSet (mapSet s.syncQueue tab v1) tab v2, s.isProcessing, s.lastProcessTime,
      s.strategy,
      (s.pendingTimers ++ [s.lastProcessTime + getThrottleInterval s.strategy])
        ++ [s.lastProcessTime + getThrottleInterval s.strategy]⟩
    hscroll (mapSet_ne_nil _ _ _) hproc
  refine ⟨?_, ?_, ?_⟩
  · simp only [e1]
  · simp only [e1, e2]
  · simp only [e1, e2, e3]
    rw [corr_filter, mapSet_mapSet_same, mapSet_filter_key _ _ _ hnodup]
    simp [href]

/-- Concrete environment of the distance-filter counterexample: tabs A..D,
    focused tab C (index 2), surfaces mounted for the virtualization window
    B, C, D around it, ref objects present for every tab, content inset 3. -/
def envC4 : SyncEnv :=
  ⟨[("A"), ("B"), ("C"), ("D")], fun _ => true,
   fun n => [("B"), ("C"), ("D")].contains n, 3, false, false, 2⟩

/-- Idle scheduler state: empty queue, not processing, last batch at 0,
    normal strategy, no pending timers. -/
def sC4 : SchedState := ⟨[], false, 0, Strategy.normal, []⟩

/-- Witness for C1: two coalesced requests for tab A at 10 then 20 drain to
    the single correction 20 minus inset 3. -/
theorem c1_coalescing_witness :
    ((processBatch envC4 99
        (requestSync envC4 2 ("A") 20 (requestSync envC4 1 ("A") 10 sC4).1).1).2.filter
      (fun c => c.tab == ("A"))) = [⟨("A"), 17⟩] :=
  (c1_coalescing envC4 sC4 ("A") 10 20 1 2 99 (by decide) (by decide) (by decide)
    rfl rfl rfl (by decide)).2.2

/-- C2 (amended): batch processing is suspended by isScrolling alone: while
    it is true, processBatch is a no-op (zero corrections, state untouched)
    and requestSync calls still coalesce into the queue for later
    application.  The batch step reads no tab-switch-in-progress flag. -/
theorem c2_scroll_suspension :
    (∀ (env : SyncEnv) (now : Int) (s : SchedState),
       env.isScrolling = true → processBatch env now s = (s, []))
    ∧ (∀ (env : SyncEnv) (now : Int) (tab : String) (v : Int) (s : SchedState),
         env.isScrolling = true →
         (findIndexD env.tabNames (fun n => n == tab)
            - findIndexD env.tabNames env.refCurrent).natAbs ≤ 1 →
         (requestSync env now tab v s).2 = []
           ∧ lookupMap (requestSync env now tab v s).1.syncQueue tab = some v) := by
  refine ⟨fun env now s h => processBatch_noop_scrolling env now s h, ?_⟩
  intro env now tab v s hs hf
  simp only [requestSync]
  rw [if_neg (by omega)]
  by_cases ht : getThrottleInterval s.strategy ≤ now - s.lastProcessTime
  · rw [if_pos ht, processBatch_noop_scrolling env now _ hs]
    exact ⟨rfl, lookupMap_mapSet _ _ _⟩
  · rw [if_neg ht]
    exact ⟨rfl, lookupMap_mapSet _ _ _⟩

/-- Environment refuting the switch-in-progress half of C2: a tab switch is
    in progress (switchInProgress true) but no gesture is active. -/
def envC2 : SyncEnv :=
  ⟨[("A")], fun _ => true, fun n => n == ("A"), 2, false, true, 0⟩

/-- Scheduler state with one queued request for tab A. -/
def sC2 : SchedState := ⟨[(("A"), 5)], false, 0, Strategy.normal, []⟩

/-- Counterexample to C2 as stated: with switchInProgress true and
    isScrolling false, an invocation of processBatch applies a correction
    anyway; the batch step does not consult the tab-switch flag. -/
theorem c2_counterexample :
    envC2.switchInProgress = true ∧ envC2.isScrolling = false
      ∧ (processBatch envC2 50 sC2).2 = [⟨("A"), 3⟩] := by decide

/-- Environment for the C2 witness: a scroll gesture is active. -/
def envC2b : SyncEnv :=
  ⟨[("A")], fun _ => true, fun n => n == ("A"), 2, true, false, 0⟩

/-- Witness for C2 (amended): with isScrolling true the batch step leaves the
    queued request of sC2 untouched and applies nothing. -/
theorem c2_scroll_suspension_witness :
    envC2b.isScrolling = true ∧ processBatch envC2b 50 sC2 = (sC2, []) :=
  ⟨rfl, c2_scroll_suspension.1 envC2b 50 sC2 rfl⟩

/-- C4 (amended): a requestSync call is dropped outright (state unchanged,
    nothing emitted, so it never results in a surface correction) whenever
    the distance between the requested tab's index and the index of the
    first tab whose ref has a mounted current instance (the code's stand-in
    for the focused tab) exceeds 1. -/
theorem c4_distance_filter :
    ∀ (env : SyncEnv) (now : Int) (tab : String) (v : Int) (s : SchedState),
      1 < (findIndexD env.tabNames (fun n => n == tab)
            - findIndexD env.tabNames env.refCurrent).natAbs →
      requestSync env now tab v s = (s, []) := by
  intro env now tab v s h
  simp only [requestSync]
  rw [if_pos h]

/-- Counterexample to C4 as stated: in envC4 the focused tab is C (index 2)
    while the first tab with a mounted ref is B (index 1); a request for
    tab A has index distance 2 from the focused tab, yet it passes the
    filter and the immediate batch applies a correction to A. -/
theorem c4_counterexample :
    1 < (findIndexD envC4.tabNames (fun n => n == ("A")) - envC4.focusedIndex).natAbs
      ∧ findIndexD envC4.tabNames envC4.refCurrent = 1
      ∧ (requestSync envC4 100 ("A") 7 sC4).2 = [⟨("A"), 4⟩] := by decide

/-- Witness for C4 (amended): a request for tab D, at distance 2 from the
    first mounted-ref tab B, is dropped. -/
theorem c4_distance_filter_witness :
    1 < (findIndexD envC4.tabNames (fun n => n == ("D"))
          - findIndexD envC4.tabNames envC4.refCurrent).natAbs
      ∧ requestSync envC4 100 ("D") 7 sC4 = (sC4, []) :=
  ⟨by decide, c4_distance_filter envC4 100 ("D") 7 sC4 (by decide)⟩

/-- Environment of the throttle-boundary scenario: tabs A and B, tab A
    focused and mounted, content inset 2, no gesture in flight. -/
def envC5 : SyncEnv :=
  ⟨[("A"), ("B")], fun _ => true, fun n => n == ("A"), 2, false, false, 0⟩

/-- Scheduler state just after a batch at time 0, under strategy Moderate. -/
def sC5 : SchedState := ⟨[], false, 0, Strategy.moderate, []⟩

/-- Timeline of the throttle-boundary scenario: two requests for tab A at
    times 5 and 15 (10ms apart, both inside the 33ms window after the batch
    at time 0), followed by the two setTimeout callbacks those requests
    scheduled, both firing at the boundary 0 + 33. -/
def eventsC5 : List SyncEvent :=
  [SyncEvent.req 5 ("A") 7, SyncEvent.req 15 ("A") 9,
   SyncEvent.fire 33, SyncEvent.fire 33]

/-- C5: the throttle interval is 16ms under Normal, 33ms under Moderate and
    50ms under Aggressive; a request arriving inside the throttle window is
    deferred, not dropped, with a timer firing exactly at lastProcessTime
    plus the interval; and in the Moderate scenario two requests 10ms apart
    produce exactly one batch application, at time 33 = lastProcessTime +
    33, applying the latest value. -/
theorem c5_throttle :
    (getThrottleInterval Strategy.normal = 16
        ∧ getThrottleInterval Strategy.moderate = 33
        ∧ getThrottleInterval Strategy.aggressive = 50)
    ∧ (∀ (env : SyncEnv) (now : Int) (tab : String) (v : Int) (s : SchedState),
         (findIndexD env.tabNames (fun n => n == tab)
            - findIndexD env.tabNames env.refCurrent).natAbs ≤ 1 →
         now - s.lastProcessTime < getThrottleInterval s.strategy →
         requestSync env now tab v s =
           (⟨mapSet s.syncQueue tab v, s.isProcessing, s.lastProcessTime, s.strategy,
             s.pendingTimers ++ [s.lastProcessTime + getThrottleInterval s.strategy]⟩, []))
    ∧ (batchApplications (runSync envC5 sC5 eventsC5).2 = [(33, [⟨("A"), 7⟩])]
        ∧ (runSync envC5 sC5 eventsC5).1.pendingTimers = []
        ∧ (runSync envC5 sC5 eventsC5).1.lastProcessTime = 33) :=
  ⟨⟨rfl, rfl, rfl⟩,
   fun env now tab v s hf ht => requestSync_deferred env now tab v s hf ht,
   by decide⟩

/-- Witness for C5: the deferral clause applied to the first request of the
    scenario, which schedules the batch at exactly the 33ms boundary. -/
theorem c5_throttle_witness :
    (5 : Int) - sC5.lastProcessTime < getThrottleInterval sC5.strategy
      ∧ requestSync envC5 5 ("A") 7 sC5 =
          (⟨mapSet sC5.syncQueue ("A") 7, sC5.isProcessing, sC5.lastProcessTime,
            sC5.strategy,
            sC5.pendingTimers ++ [sC5.lastProcessTime + getThrottleInterval sC5.strategy]⟩,
           []) :=
  ⟨by decide, c5_throttle.2.1 envC5 5 ("A") 7 sC5 (by decide) (by decide)⟩

/-- Static configuration of one Lazy component instance: its tab name from
    the name context, the cancelLazyFadeIn prop, and the startMounted prop
    (none when the prop is left undefined). -/
structure LazyCfg where
  name : String
  cancelLazyFadeIn : Bool
  startMounted : Option Bool
  deriving DecidableEq, Repr

/-- Dynamic state of one Lazy instance: the current focusedTab shared value,
    the canMount React state, the isSelfMounted liveness ref, and the queue
    of pending setTimeout mount timers, each holding the focusedTab string
    captured when startMountTimer was called (the callback closes over its
    focusedTab argument, not over the live shared value). -/
structure LazyState where
  focusedTab : String
  canMount : Bool
  selfMounted : Bool
  timers : List String
  deriving DecidableEq, Repr

/-- Initial Lazy state: canMount follows startMounted when the prop is a
    boolean, otherwise whether the tab is the focused one; the component is
    live and no timer is pending. -/
def initLazy (cfg : LazyCfg) (focused0 : String) : LazyState :=
  ⟨focused0,
   match cfg.startMounted with
   | some b => b
   | none => focused0 == cfg.name,
   true, []⟩

/-- Events acting on a Lazy instance: the focusedTab shared value changing
    (which runs the useAnimatedReaction), the oldest pending mount timer
    firing after its mountDelayMs, the startMounted-is-true effect running,
    and the component unmounting (isSelfMounted becomes false). -/
inductive LazyEvent where
  | focus (tab : String)
  | fireMountTimer
  | startMountedTrueEffect
  | unmountSelf
  deriving DecidableEq, Repr

/-- One step of the Lazy state machine, translated from the
    useAnimatedReaction, startMountTimer and the startMounted effect: on a
    focus change to this tab while unmountable, either mount at once
    (cancelLazyFadeIn) or schedule a timer capturing the focusedTab value at
    scheduling time; a firing timer mounts whenever its captured string
    equals the tab name and the component is still live — it does not read
    the current focus. -/
def lazyStep (cfg : LazyCfg) (s : LazyState) : LazyEvent → LazyState
  | LazyEvent.focus tab =>
      if (tab == cfg.name) && !(s.focusedTab == cfg.name) && !s.canMount then
        if cfg.cancelLazyFadeIn then ⟨tab, true, s.selfMounted, s.timers⟩
        else ⟨tab, s.canMount, s.selfMounted, s.timers ++ [tab]⟩
      else ⟨tab, s.canMount, s.selfMounted, s.timers⟩
  | LazyEvent.fireMountTimer =>
      match s.timers with
      | [] => s
      | captured :: rest =>
          if (captured == cfg.name) && s.selfMounted then
            ⟨s.focusedTab, true, s.selfMounted, rest⟩
          else ⟨s.focusedTab, s.canMount, s.selfMounted, rest⟩
  | LazyEvent.startMountedTrueEffect => ⟨s.focusedTab, true, s.selfMounted, s.timers⟩
  | LazyEvent.unmountSelf => ⟨s.focusedTab, s.canMount, false, s.timers⟩

/-- Lazy state after a whole event sequence. -/
def runLazy (cfg : LazyCfg) (s : LazyState) (es : List LazyEvent) : LazyState :=
  es.foldl (lazyStep cfg) s

/-- Lazy configuration of the mount-timer scenario: tab A, fade enabled,
    startMounted prop left undefined. -/
def cfgC3 : LazyCfg := ⟨("A"), false, none⟩

/-- Initial state of the scenario: tab B focused, so A starts unmounted. -/
def sC3 : LazyState := initLazy cfgC3 ("B")

/-- C3: evaluation of the code at the failing input: focus moves to A (a
    mount timer for A is scheduled), focus moves away to B before the
    deadline, and when the timer fires it mounts A anyway — the callback
    compares the focusedTab string captured at scheduling, which is A
    itself, so the still-focused check never fails and the Scheduled to
    Mounted transition happens although B is the focused tab at the
    deadline. -/
theorem c3_mount_fires_despite_focus_change :
    (runLazy cfgC3 sC3 [LazyEvent.focus ("A")]).timers = [("A")]
      ∧ (runLazy cfgC3 sC3 [LazyEvent.focus ("A")]).canMount = false
      ∧ (runLazy cfgC3 sC3
          [LazyEvent.focus ("A"), LazyEvent.focus ("B"),
           LazyEvent.fireMountTimer]).canMount = true
      ∧ (runLazy cfgC3 sC3
          [LazyEvent.focus ("A"), LazyEvent.focus ("B"),
           LazyEvent.fireMountTimer]).focusedTab = ("B") := by decide

lemma lazyStep_canMount (cfg : LazyCfg) (s : LazyState) (e : LazyEvent)
    (h : s.canMount = true) : (lazyStep cfg s e).canMount = true := by
  cases e with
  | focus tab =>
    simp only [lazyStep, h]
    split
    · split <;> rfl
    · rfl
  | fireMountTimer =>
    obtain ⟨f, cm, sm, tm⟩ := s
    replace h : cm = true := h
    subst h
    cases tm with
    | nil => rfl
    | cons c rest =>
      simp only [lazyStep]
      split <;> rfl
  | startMountedTrueEffect => rfl
  | unmountSelf => simpa using h

/-- C6: sticky visibility: once a Lazy instance has mounted (canMount true),
    no subsequent sequence of focus changes, timer firings, startMounted
    effects or unmounts ever resets canMount to false — the component never
    returns its children to the unmounted placeholder. -/
theorem c6_sticky_visibility (cfg : LazyCfg) (s : LazyState)
    (es : List LazyEvent) (h : s.canMount = true) :
    (runLazy cfg s es).canMount = true := by
  induction es generalizing s with
  | nil => exact h
  | cons e rest ih =>
    exact ih (lazyStep cfg s e) (lazyStep_canMount cfg s e h)

/-- Witness for C6: a mounted tab A stays mounted across a focus change
    away, a timer firing and a focus change back. -/
theorem c6_sticky_visibility_witness :
    (initLazy cfgC3 ("A")).canMount = true
      ∧ (runLazy cfgC3 (initLazy cfgC3 ("A"))
          [LazyEvent.focus ("B"), LazyEvent.fireMountTimer,
           LazyEvent.focus ("A")]).canMount = true :=
  ⟨by decide,
   c6_sticky_visibility cfgC3 (initLazy cfgC3 ("A"))
     [LazyEvent.focus ("B"), LazyEvent.fireMountTimer, LazyEvent.focus ("A")]
     (by decide)⟩

end TabSync
